import Mathlib

/-!
# Verification of the geomeppy polygon engine

A shallow embedding of `geomeppy/geom/vectors.py` and
`geomeppy/geom/polygons.py`.  Python floats are modelled by exact rationals
(`ℚ`); float `** 0.5` is modelled by the exact rational square root (the
claims only evaluate it at perfect squares, where the two agree).  The
third-party integer clipping engine (pyclipper) is an external collaborator
and is abstracted as a backend parameter, following the engine contract of
the specification (§6).  Python exceptions are modelled with `Except`.
-/

namespace Geomeppy

/-- `Vector2D` from `vectors.py`: two rational components. -/
structure Vector2D where
  x : ℚ
  y : ℚ
deriving DecidableEq, Repr

/-- `Vector3D` from `vectors.py`: three rational components. -/
structure Vector3D where
  x : ℚ
  y : ℚ
  z : ℚ
deriving DecidableEq, Repr

instance : Inhabited Vector2D := ⟨⟨0, 0⟩⟩

instance : Inhabited Vector3D := ⟨⟨0, 0, 0⟩⟩

/-- `Vector2D.__add__`: componentwise addition. -/
instance : Add Vector2D := ⟨fun a b => ⟨a.x + b.x, a.y + b.y⟩⟩

/-- `Vector2D.__sub__`: componentwise subtraction. -/
instance : Sub Vector2D := ⟨fun a b => ⟨a.x - b.x, a.y - b.y⟩⟩

/-- `Vector2D.__add__` on 3D vectors: componentwise addition. -/
instance : Add Vector3D := ⟨fun a b => ⟨a.x + b.x, a.y + b.y, a.z + b.z⟩⟩

/-- `Vector2D.__sub__` on 3D vectors: componentwise subtraction. -/
instance : Sub Vector3D := ⟨fun a b => ⟨a.x - b.x, a.y - b.y, a.z - b.z⟩⟩

/-- `Vector2D.__neg__` / `inverse_vector`: componentwise negation. -/
instance : Neg Vector3D := ⟨fun a => ⟨-a.x, -a.y, -a.z⟩⟩

/-- Indexing `v[i]` on a `Vector3D` (`args` tuple access). -/
def Vector3D.nth (v : Vector3D) : Nat → ℚ
  | 0 => v.x
  | 1 => v.y
  | _ => v.z

/-- `np.dot` on two 3D vectors. -/
def dotV (a b : Vector3D) : ℚ := a.x * b.x + a.y * b.y + a.z * b.z

/-- A 3D polygon is its ordered vertex list (`Polygon3D.vertices`). -/
abbrev Polygon3D := List Vector3D

/-- A 2D polygon is its ordered vertex list (`Polygon.vertices`). -/
abbrev Polygon2D := List Vector2D

/-- The `n[0]` increment of one loop iteration of `normal_vector`. -/
def newellX (p : Vector3D × Vector3D) : ℚ := (p.1.y - p.2.y) * (p.1.z + p.2.z)

/-- The `n[1]` increment of one loop iteration of `normal_vector`. -/
def newellY (p : Vector3D × Vector3D) : ℚ := (p.1.z - p.2.z) * (p.1.x + p.2.x)

/-- The `n[2]` increment of one loop iteration of `normal_vector`. -/
def newellZ (p : Vector3D × Vector3D) : ℚ := (p.1.x - p.2.x) * (p.1.y + p.2.y)

/-- The accumulation loop of `normal_vector` (polygons.py lines 717-723):
`for i, v_curr in enumerate(poly): v_next = poly[(i + 1) % len(poly)]; ...`. -/
def newell (poly : Polygon3D) : Vector3D :=
  (List.range poly.length).foldl
    (fun n i =>
      let p := (poly.getD i default, poly.getD ((i + 1) % poly.length) default)
      ⟨n.x + newellX p, n.y + newellY p, n.z + newellZ p⟩)
    ⟨0, 0, 0⟩

/-- The magnitude used by `normalise_vector`: `sum(abs(i) for i in v)`. -/
def l1magnitude (v : Vector3D) : ℚ := |v.x| + |v.y| + |v.z|

/-- `normalise_vector` from `vectors.py`: divide every component by the sum
of the absolute components. -/
def normalise_vector (v : Vector3D) : Vector3D :=
  ⟨v.x / l1magnitude v, v.y / l1magnitude v, v.z / l1magnitude v⟩

/-- Module-level `normal_vector` from `polygons.py`: Newell accumulation
followed by `normalise_vector`. -/
def normal_vector (poly : Polygon3D) : Vector3D := normalise_vector (newell poly)

/-- Each vertex paired with its cyclic successor: the "consecutive vertex
pairs with wraparound" of the specification. -/
def cyclicPairs (l : Polygon3D) : List (Vector3D × Vector3D) := l.zip (l.rotate 1)

/-- The Newell accumulation as the specification words it: sum the three
edge terms over each consecutive vertex pair, wrapping around. -/
def specNewell (l : Polygon3D) : Vector3D :=
  ⟨((cyclicPairs l).map newellX).sum,
   ((cyclicPairs l).map newellY).sum,
   ((cyclicPairs l).map newellZ).sum⟩

/-- The normal vector as the specification words it: the accumulated vector
with each component divided by the sum of the absolute values of the three
accumulated components (L1 normalization). -/
def specNormalVector (l : Polygon3D) : Vector3D :=
  ⟨(specNewell l).x / l1magnitude (specNewell l),
   (specNewell l).y / l1magnitude (specNewell l),
   (specNewell l).z / l1magnitude (specNewell l)⟩

/-- `Polygon.invert_orientation`: reverse the order of the vertices. -/
def invert_orientation (p : Polygon3D) : Polygon3D := p.reverse

/-- `Polygon3D.distance`: `np.dot(normal_vector, points_matrix[0])`, the
plane offset of the polygon. -/
def distance (p : Polygon3D) : ℚ := dotV (normal_vector p) (p.getD 0 default)

/-- `Polygon3D.projection_axis`:
`max(range(3), key=lambda i: abs(self.normal_vector[i]))`.  Python's `max`
keeps the first index attaining the maximum, replacing only on a strict
increase of the key. -/
def projection_axis (p : Polygon3D) : Nat :=
  if |(normal_vector p).y| > |(normal_vector p).x| then
    (if |(normal_vector p).z| > |(normal_vector p).y| then 2 else 1)
  else (if |(normal_vector p).z| > |(normal_vector p).x| then 2 else 0)

/-- `project`: drop the `proj_axis` coordinate of a point. -/
def projectPt (w : Vector3D) (ax : Nat) : Vector2D :=
  match ax with
  | 0 => ⟨w.y, w.z⟩
  | 1 => ⟨w.x, w.z⟩
  | _ => ⟨w.x, w.y⟩

/-- `Polygon3D.project_to_2D`: drop the projection-axis coordinate from
every vertex, in order. -/
def project_to_2D (p : Polygon3D) : Polygon2D :=
  p.map (fun w => projectPt w (projection_axis p))

/-- `project_inv`: insert a zero at the projection axis, then solve
`normal . w = a` for the missing coordinate (`c = (a - sum w[i]*v[i]) / v[axis]`). -/
def project_inv (pt : Vector2D) (ax : Nat) (a : ℚ) (v : Vector3D) : Vector3D :=
  match ax with
  | 0 => ⟨(a - (0 * v.x + pt.x * v.y + pt.y * v.z)) / v.x, pt.x, pt.y⟩
  | 1 => ⟨pt.x, (a - (pt.x * v.x + 0 * v.y + pt.y * v.z)) / v.y, pt.y⟩
  | _ => ⟨pt.x, pt.y, (a - (pt.x * v.x + pt.y * v.y + 0 * v.z)) / v.z⟩

/-- `Polygon.project_to_3D(example3d)`: apply `project_inv` to every 2D
vertex using the example polygon's projection axis, distance and normal. -/
def project_to_3D (p2 : Polygon2D) (example3d : Polygon3D) : Polygon3D :=
  p2.map (fun pt =>
    project_inv pt (projection_axis example3d) (distance example3d)
      (normal_vector example3d))

/-- Modelled from the spec: `almostequal` (from `geomeppy.utilities`, a
module not included under `src/`) is the implicit floating-point tolerance
comparison used throughout (spec §4.2, §9); scalars compare equal when they
agree to the default seven decimal places. -/
def almostequal (a b : ℚ) : Bool := |a - b| ≤ 1 / (2 * 10 ^ 7)

/-- Modelled from the spec: `almostequal` on vectors compares componentwise
with the scalar tolerance. -/
def almostequalV (a b : Vector3D) : Bool :=
  almostequal a.x b.x && almostequal a.y b.y && almostequal a.z b.z

/-- `Polygon3D.is_coplanar`: same plane, or same plane with opposite
orientation (normals negated and distances negated). -/
def is_coplanar (p other : Polygon3D) : Bool :=
  (almostequalV (normal_vector p) (normal_vector other) &&
      almostequal (distance p) (distance other)) ||
    (almostequalV (normal_vector p) (-(normal_vector other)) &&
      almostequal (distance p) (-(distance other)))

/-- The boolean operators of the clipping engine contract (spec §6). -/
inductive ClipOp
  | union
  | intersection
  | difference
deriving DecidableEq

/-- The external integer clipping engine (pyclipper), abstracted behind the
spec's §6 contract: given the operator and the subject and clip rings (the
engine's integer scaling is internal to the adapter boundary), it returns a
list of result rings. -/
abbrev ClipBackend := ClipOp → Polygon2D → Polygon2D → List Polygon2D

/-- `prep_3D_polys`: returns `False` (here `none`) when the polygons are not
coplanar, otherwise the two 2D projections handed to the engine. -/
def prep_3D_polys (poly1 poly2 : Polygon3D) : Option (Polygon2D × Polygon2D) :=
  if is_coplanar poly1 poly2 then some (project_to_2D poly1, project_to_2D poly2)
  else none

/-- `process_clipped_3D_polys`: project every result ring back to 3D using
the example polygon's plane. -/
def process_clipped_3D_polys (results : List Polygon2D) (example3d : Polygon3D) :
    List Polygon3D :=
  results.map (fun r => project_to_3D r example3d)

/-- The re-orientation loop shared by the three 3D boolean operations:
keep each result whose normal almost equals the subject's, invert the rest. -/
def orient_3D (poly1 : Polygon3D) (polys : List Polygon3D) : List Polygon3D :=
  polys.map (fun p =>
    if almostequalV (normal_vector p) (normal_vector poly1) then p
    else invert_orientation p)

/-- `union_3D_polys`: empty on non-coplanar input, otherwise clip, project
back and re-orient to the subject polygon. -/
def union_3D_polys (be : ClipBackend) (poly1 poly2 : Polygon3D) : List Polygon3D :=
  match prep_3D_polys poly1 poly2 with
  | none => []
  | some (s1, s2) => orient_3D poly1 (process_clipped_3D_polys (be .union s1 s2) poly1)

/-- `intersect_3D_polys`: empty on non-coplanar input, otherwise clip,
project back and re-orient to the subject polygon. -/
def intersect_3D_polys (be : ClipBackend) (poly1 poly2 : Polygon3D) : List Polygon3D :=
  match prep_3D_polys poly1 poly2 with
  | none => []
  | some (s1, s2) =>
      orient_3D poly1 (process_clipped_3D_polys (be .intersection s1 s2) poly1)

/-- `difference_3D_polys`: empty on non-coplanar input, otherwise clip,
project back and re-orient to the subject polygon. -/
def difference_3D_polys (be : ClipBackend) (poly1 poly2 : Polygon3D) : List Polygon3D :=
  match prep_3D_polys poly1 poly2 with
  | none => []
  | some (s1, s2) =>
      orient_3D poly1 (process_clipped_3D_polys (be .difference s1 s2) poly1)

/-- `Polygon.normal_vector` (2D): embed the vertices in the `z = 0` plane
and take the 3D Newell normal. -/
def normal_vector_2D (p : Polygon2D) : Vector3D :=
  normal_vector (p.map fun v => ⟨v.x, v.y, 0⟩)

/-- `process_clipped_2D_polys`: unscale and wrap each result ring (a no-op
in the rational model); an empty engine result stays the empty list. -/
def process_clipped_2D_polys (results : List Polygon2D) : List Polygon2D := results

/-- The re-orientation loop of the 2D boolean operations; unlike the 3D
ones it compares normals exactly (`==`), not with `almostequal`. -/
def orient_2D (poly1 : Polygon2D) (polys : List Polygon2D) : List Polygon2D :=
  polys.map (fun p =>
    if normal_vector_2D p = normal_vector_2D poly1 then p else p.reverse)

/-- `difference_2D_polys`: run the engine's difference and re-orient each
result ring to the subject polygon. -/
def difference_2D_polys (be : ClipBackend) (poly1 poly2 : Polygon2D) : List Polygon2D :=
  orient_2D poly1 (process_clipped_2D_polys (be .difference poly1 poly2))

/-- `Polygon.__eq__`: identical state (`__dict__`, i.e. the vertex list),
else `False` when `self.difference(other)` is non-empty, else `True` exactly
when the normal vectors coincide. -/
def polygon2D_eq (be : ClipBackend) (a other : Polygon2D) : Bool :=
  if a = other then true
  else if difference_2D_polys be a other ≠ [] then false
  else decide (normal_vector_2D a = normal_vector_2D other)

/-- Modelled from the spec (§6 engine contract): a clipping backend whose
`difference` returns the subject ring unchanged, the contractually correct
result when the clip ring is disjoint from the subject ring.  Used only to
instantiate the abstract backend on disjoint concrete squares. -/
def disjointBackend : ClipBackend := fun _ s _ => [s]

/-- `relative_distance`: the squared-component sum of `pt1 - pt2`, used both
for sorting vertex pairs and inside `Vector2D.closest`. -/
def relative_distance (pt1 pt2 : Vector3D) : ℚ :=
  (pt1.x - pt2.x) ^ 2 + (pt1.y - pt2.y) ^ 2 + (pt1.z - pt2.z) ^ 2

/-- The loop of `Vector2D.closest` after the first candidate has been taken:
replace the current best only on a strictly smaller squared distance. -/
def closestFrom (p cur : Vector3D) (curd : ℚ) : List Vector3D → Vector3D
  | [] => cur
  | q :: qs =>
      if relative_distance p q < curd then closestFrom p q (relative_distance p q) qs
      else closestFrom p cur curd qs

/-- `Vector2D.closest`: the first-encountered vertex of the polygon at
minimal squared distance (`None` on an empty polygon). -/
def closest (p : Vector3D) : List Vector3D → Option Vector3D
  | [] => none
  | q :: qs => some (closestFrom p q (relative_distance p q) qs)

/-- Python's `str.lower` on the ASCII strings used here: lowercase each
character of the string. -/
def pyLower (s : String) : String := ⟨s.data.map Char.toLower⟩

/-- `Polygon3D.outside_point`: lowercase the entry direction, step from
vertex 0 along minus/plus the normal for clockwise/counterclockwise, and
raise `ValueError` identifying any other value. -/
def outside_point (p : Polygon3D) (entry_direction : String) : Except String Vector3D :=
  if pyLower entry_direction = "clockwise" then
    .ok (p.getD 0 default - normal_vector p)
  else if pyLower entry_direction = "counterclockwise" then
    .ok (p.getD 0 default + normal_vector p)
  else .error ("invalid value for entry_direction " ++ pyLower entry_direction)

/-- The vertex rotation built by `order_points`:
`[self[(start_index + i) % len(self)] for i in range(len(self))]` with
`start_index = self.index(bbox_corner.closest(self))`. -/
def orderFrom (p : Polygon3D) (corner : Vector3D) : Polygon3D :=
  (List.range p.length).map
    (fun i => p.getD ((p.indexOf ((closest corner p).getD default) + i) % p.length)
      default)

/-- `Polygon3D.order_points`.  Modelled from the spec: `align_face` and
`invert_align_face` (`transformations.py`, repository code not included
under `src/`) make `Polygon.bounding_box` a rotation of the plane followed
by min/max corner extraction; the bounding box is therefore abstracted here
as a function of the polygon, a function of its plane and vertex extents
only (spec §2.3, §4.2).  `order_points` picks the corner indexed by the
starting-position name and rotates the vertex list to start at the vertex
closest to it; an unrecognized name raises `ValueError` identifying it. -/
def order_points (bounding_box : Polygon3D → Polygon3D) (p : Polygon3D)
    (starting_position : String) : Except String Polygon3D :=
  if starting_position = "upperleftcorner" then
    .ok (orderFrom p ((bounding_box p).getD 0 default))
  else if starting_position = "lowerleftcorner" then
    .ok (orderFrom p ((bounding_box p).getD 1 default))
  else if starting_position = "lowerrightcorner" then
    .ok (orderFrom p ((bounding_box p).getD 2 default))
  else if starting_position = "upperrightcorner" then
    .ok (orderFrom p ((bounding_box p).getD 3 default))
  else .error (starting_position ++ " is not a valid starting position")

/-- The corner handed to `closest` for `starting_position = 'upperleftcorner'`:
index 0 of the (abstracted) bounding box. -/
def ulCorner (bounding_box : Polygon3D → Polygon3D) (p : Polygon3D) : Vector3D :=
  (bounding_box p).getD 0 default

/-- The vertex of `p` nearest the upper-left bounding-box corner. -/
def ulStartVertex (bounding_box : Polygon3D → Polygon3D) (p : Polygon3D) : Vector3D :=
  (closest (ulCorner bounding_box p) p).getD default

/-- The `start_index` computed by `order_points('upperleftcorner')`. -/
def ulStart (bounding_box : Polygon3D → Polygon3D) (p : Polygon3D) : Nat :=
  p.indexOf (ulStartVertex bounding_box p)

/-- The runtime type of the right-hand operand of `Polygon.__add__` and
`Polygon.__sub__`: another polygon (a vertex list) or a single vector. -/
inductive PyOperand
  | poly (vertices : List Vector3D)
  | vec (v : Vector3D)
deriving DecidableEq

/-- The Python exceptions the polygon arithmetic can raise:
the descriptive `ValueError("Incompatible objects: %s + %s")` carrying both
operands, the `TypeError` raised inside `Vector2D.__add__`/`__sub__` when a
float meets a vector, and `IndexError` from indexing an empty list. -/
inductive PyError
  | valueErrorIncompatible (lhs : List Vector3D) (rhs : PyOperand)
  | typeError
  | indexError
deriving DecidableEq

/-- `len(other)`: vertex count of a polygon, or 3 for a `Vector3D` (its
three stored components). -/
def operandLen : PyOperand → Nat
  | .poly q => q.length
  | .vec _ => 3

/-- The `elif len(self[0]) == len(other)` branch of `__add__`/`__sub__`:
`self[0]` raises `IndexError` on an empty polygon; a `Vector3D` right-hand
side translates every vertex; a polygon right-hand side of length 3 is
misdispatched here and `v + other` (a float plus a `Vector3D` inside
`Vector2D.__add__`, which has no reflected counterpart) raises `TypeError`;
anything else raises the descriptive `ValueError` naming both operands. -/
def translateBranch (f : Vector3D → Vector3D → Vector3D) (a : List Vector3D)
    (other : PyOperand) : Except PyError (List Vector3D) :=
  if a = [] then .error .indexError
  else if 3 = operandLen other then
    match other with
    | .vec w => .ok (a.map (fun v => f v w))
    | .poly _ => .error .typeError
  else .error (.valueErrorIncompatible a other)

/-- `Polygon.__add__`/`__sub__` (the two differ only in the vertex-level
operation): elementwise when `len(self) == len(other)` and `other[0]` has
`__len__` (i.e. `other` is a non-empty polygon; `other[0]` on an empty one
raises `IndexError`), otherwise the translate-or-fail branch. -/
def polyArith (f : Vector3D → Vector3D → Vector3D) (a : List Vector3D)
    (other : PyOperand) : Except PyError (List Vector3D) :=
  if a.length = operandLen other then
    match other with
    | .poly [] => .error .indexError
    | .poly q => .ok (List.zipWith f a q)
    | .vec _ => translateBranch f a other
  else translateBranch f a other

/-- `Polygon.__add__` on 3D polygons. -/
def polygon3D_add (a : List Vector3D) (other : PyOperand) :
    Except PyError (List Vector3D) :=
  polyArith (fun v w => v + w) a other

/-- `Polygon.__sub__` on 3D polygons. -/
def polygon3D_sub (a : List Vector3D) (other : PyOperand) :
    Except PyError (List Vector3D) :=
  polyArith (fun v w => v - w) a other

/-- A heap of vector objects for the mutation claims: each reference (a
`Nat`) owns a component list (`Vector2D.args` / `Vector3D.args`). -/
abbrev Store := Nat → List ℚ

/-- The Python exception raised by `new_length / current_length` when the
current length is zero. -/
inductive VectorError
  | zeroDivisionError
deriving DecidableEq

/-- `Vector2D.length`: `sum(x ** 2 for x in self.args) ** 0.5`; the float
square root is modelled by the exact rational square root (the claims use it
only at perfect squares, where the two agree). -/
def vector_length (args : List ℚ) : ℚ := Rat.sqrt ((args.map (fun x => x ^ 2)).sum)

/-- `Vector2D.set_length`: compute `multiplier = new_length / current_length`
(raising `ZeroDivisionError` on a zero-length vector), assign the scaled
component list to `self.args`, and `return self`.  In the store-passing
model the receiver is the reference `r`; the assignment updates the store at
`r` and the very same reference is returned. -/
def set_length (r : Nat) (new_length : ℚ) (σ : Store) :
    Except VectorError (Nat × Store) :=
  if vector_length (σ r) = 0 then .error .zeroDivisionError
  else
    .ok (r, fun q =>
      if q = r then (σ r).map (fun i => i * (new_length / vector_length (σ r)))
      else σ q)

/-- `Vector2D.normalize`: `return self.set_length(1.0)`. -/
def normalize (r : Nat) (σ : Store) : Except VectorError (Nat × Store) :=
  set_length r 1 σ

/-- `itertools.product(poly, hole)`: all pairs, right factor fastest. -/
def pyProduct (l1 l2 : List Vector3D) : List (Vector3D × Vector3D) :=
  l1.flatMap (fun a => l2.map (fun b => (a, b)))

/-- Insert a pair into a list sorted ascending by `relative_distance`,
before the first element of strictly larger or equal key is *not* enough for
stability when folding from the right, so insertion stops at the first
element whose key is at least the inserted key. -/
def insertByDist (x : Vector3D × Vector3D) :
    List (Vector3D × Vector3D) → List (Vector3D × Vector3D)
  | [] => [x]
  | y :: ys =>
      if relative_distance x.1 x.2 ≤ relative_distance y.1 y.2 then x :: y :: ys
      else y :: insertByDist x ys

/-- Python's `sorted(links, key=relative_distance)`: the stable ascending
ordering (which is unique, so any stable ascending sort computes it),
realised as a right-fold insertion sort. -/
def sortByDist : List (Vector3D × Vector3D) → List (Vector3D × Vector3D)
  | [] => []
  | x :: xs => insertByDist x (sortByDist xs)

/-- The loop of `section(first, last, coords)`: skip until the first
occurrence of `first` (appending it), then keep appending, stopping right
after `last`; a later occurrence of `first` is appended by the first branch
without the stop check. -/
def sectionGo (first last : Vector3D) : Bool → List Vector3D → List Vector3D
  | _, [] => []
  | started, x :: xs =>
      if x = first then x :: sectionGo first last true xs
      else if started then
        (if x = last then [x] else x :: sectionGo first last true xs)
      else sectionGo first last false xs

/-- `section` from polygons.py (named `sectionWalk` here because `section`
is reserved). -/
def sectionWalk (first last : Vector3D) (coords : List Vector3D) : List Vector3D :=
  sectionGo first last false coords

/-- The specification's ring walk: rotate the ring to start at `a`, then
take vertices through the first occurrence of `b` (inclusive). -/
def takeThrough (b : Vector3D) : List Vector3D → List Vector3D
  | [] => []
  | x :: xs => x :: (if x = b then [] else takeThrough b xs)

/-- Walk the vertex ring `l` from `a` to `b`, inclusive, wrapping around. -/
def ringWalk (a b : Vector3D) (l : List Vector3D) : List Vector3D :=
  takeThrough b (l.rotate (l.indexOf a))

/-- `sorted(product(poly, hole), key=relative_distance)`. -/
def bridgeLinks (poly hole : Polygon3D) : List (Vector3D × Vector3D) :=
  sortByDist (pyProduct poly hole)

/-- `first_on_poly = links[0][0]`. -/
def firstOnPoly (poly hole : Polygon3D) : Vector3D :=
  ((bridgeLinks poly hole).getD 0 default).1

/-- `last_on_poly = links[1][0]`. -/
def lastOnPoly (poly hole : Polygon3D) : Vector3D :=
  ((bridgeLinks poly hole).getD 1 default).1

/-- `first_on_hole = links[1][1]`. -/
def firstOnHole (poly hole : Polygon3D) : Vector3D :=
  ((bridgeLinks poly hole).getD 1 default).2

/-- `last_on_hole = links[0][1]`. -/
def lastOnHole (poly hole : Polygon3D) : Vector3D :=
  ((bridgeLinks poly hole).getD 0 default).2

/-- `new_poly`: the source's two `section` walks, the first over the doubled
polygon ring, the second over the reversed doubled hole ring, concatenated. -/
def bridgedSection (poly hole : Polygon3D) : Polygon3D :=
  sectionWalk (firstOnPoly poly hole) (lastOnPoly poly hole) (poly ++ poly) ++
    sectionWalk (firstOnHole poly hole) (lastOnHole poly hole)
      ((hole ++ hole).reverse)

/-- The orientation fix of `break_polygons`: invert a piece whose normal
does not almost equal the outer polygon's. -/
def matchOrientation (poly piece : Polygon3D) : Polygon3D :=
  if almostequalV (normal_vector piece) (normal_vector poly) then piece
  else invert_orientation piece

/-- `break_polygons(poly, hole)`: the bridged polygon, and the first result
of `poly.difference(hole.union(new_poly)[0])`, each orientation-fixed
against `poly`.  (The source indexes `[0]` into the union and difference
results, raising `IndexError` when they are empty; the model takes the
default empty polygon there instead.) -/
def break_polygons (be : ClipBackend) (poly hole : Polygon3D) : List Polygon3D :=
  [matchOrientation poly (bridgedSection poly hole),
   matchOrientation poly
     ((difference_3D_polys be poly
       ((union_3D_polys be hole (bridgedSection poly hole)).getD 0
         default)).getD 0 default)]

@[ext] theorem Vector3D.ext' {a b : Vector3D} (hx : a.x = b.x) (hy : a.y = b.y)
    (hz : a.z = b.z) : a = b := by
  cases a; cases b; simp_all

theorem foldl_newell_terms (L : List (Vector3D × Vector3D)) (a : Vector3D) :
    L.foldl (fun n p => ⟨n.x + newellX p, n.y + newellY p, n.z + newellZ p⟩) a =
      ⟨a.x + (L.map newellX).sum, a.y + (L.map newellY).sum,
       a.z + (L.map newellZ).sum⟩ := by
  induction L generalizing a with
  | nil => simp
  | cons p L ih =>
      simp only [List.foldl_cons, List.map_cons, List.sum_cons, ih]
      ext <;> simp <;> ring

theorem range_map_pairs (l : Polygon3D) :
    (List.range l.length).map
        (fun i => (l.getD i default, l.getD ((i + 1) % l.length) default)) =
      cyclicPairs l := by
  apply List.ext_getElem
  · simp [cyclicPairs]
  · intro i h1 h2
    have hi : i < l.length := by simpa using h1
    have hpos : 0 < l.length := by omega
    have hmod : (i + 1) % l.length < l.length := Nat.mod_lt _ hpos
    simp only [List.getElem_map, List.getElem_range, cyclicPairs, List.getElem_zip,
      List.getElem_rotate]
    rw [List.getD_eq_getElem l default hi, List.getD_eq_getElem l default hmod]

/-- The source's indexed Newell loop computes the spec-side sum over
consecutive wrapped pairs. -/
theorem newell_eq_specNewell (l : Polygon3D) : newell l = specNewell l := by
  calc newell l
      = ((List.range l.length).map
          (fun i => (l.getD i default, l.getD ((i + 1) % l.length) default))).foldl
          (fun n p => ⟨n.x + newellX p, n.y + newellY p, n.z + newellZ p⟩)
          ⟨0, 0, 0⟩ := by
        rw [List.foldl_map]; rfl
    _ = specNewell l := by
        rw [range_map_pairs l, foldl_newell_terms]
        ext <;> simp [specNewell]

/-- Claim C1: for every `Polygon3D` whose Newell accumulation is nonzero,
`normal_vector` equals the vector obtained by accumulating the Newell edge
terms over each consecutive vertex pair with wraparound and dividing each
component by the sum of the absolute values of the three accumulated
components (L1 normalization). -/
theorem normal_vector_newell_l1 (poly : Polygon3D)
    (_h : specNewell poly ≠ ⟨0, 0, 0⟩) :
    normal_vector poly = specNormalVector poly := by
  unfold normal_vector normalise_vector specNormalVector
  rw [newell_eq_specNewell]

theorem normal_vector_newell_l1_witness :
    specNewell [(⟨0, 0, 0⟩ : Vector3D), ⟨1, 0, 0⟩, ⟨1, 1, 0⟩, ⟨0, 1, 0⟩] ≠ ⟨0, 0, 0⟩ ∧
      normal_vector [(⟨0, 0, 0⟩ : Vector3D), ⟨1, 0, 0⟩, ⟨1, 1, 0⟩, ⟨0, 1, 0⟩] =
        specNormalVector [(⟨0, 0, 0⟩ : Vector3D), ⟨1, 0, 0⟩, ⟨1, 1, 0⟩, ⟨0, 1, 0⟩] := by
  have h : specNewell [(⟨0, 0, 0⟩ : Vector3D), ⟨1, 0, 0⟩, ⟨1, 1, 0⟩, ⟨0, 1, 0⟩] ≠
      ⟨0, 0, 0⟩ := by
    simp [specNewell, cyclicPairs, newellX, newellY, newellZ, List.rotate_cons_succ,
      Vector3D.mk.injEq]
  exact ⟨h, normal_vector_newell_l1 _ h⟩

theorem zip_rotate {α β : Type} (a : List α) (b : List β) (h : a.length = b.length)
    (k : ℕ) : (a.zip b).rotate k = (a.rotate k).zip (b.rotate k) := by
  apply List.ext_getElem
  · simp [h]
  · intro i h1 h2
    have hab : (a.zip b).length = b.length := by simp [h]
    have hib : i < b.length := by simpa [h] using h2
    have hpos : 0 < b.length := by omega
    simp only [List.getElem_rotate, List.getElem_zip, hab, h]

theorem reverse_zip {α β : Type} (a : List α) (b : List β)
    (h : a.length = b.length) : (a.zip b).reverse = a.reverse.zip b.reverse := by
  apply List.ext_getElem
  · simp [h]
  · intro i h1 h2
    have hab : (a.zip b).length = b.length := by simp [h]
    simp only [List.getElem_reverse, List.getElem_zip, List.length_reverse, hab, h]

theorem sum_map_rotate {α : Type} (L : List α) (f : α → ℚ) (k : ℕ) :
    ((L.rotate k).map f).sum = (L.map f).sum :=
  ((L.rotate_perm k).map f).sum_eq

theorem sum_map_reverse {α : Type} (L : List α) (f : α → ℚ) :
    (L.reverse.map f).sum = (L.map f).sum := by
  rw [List.map_reverse, List.sum_reverse]

theorem sum_map_neg {α : Type} (L : List α) (f : α → ℚ) :
    (L.map fun p => -f p).sum = -(L.map f).sum := by
  induction L with
  | nil => simp
  | cons p L ih => simp [ih]; ring

theorem cyclicPairs_rotate (l : Polygon3D) (k : ℕ) :
    cyclicPairs (l.rotate k) = (cyclicPairs l).rotate k := by
  unfold cyclicPairs
  rw [List.rotate_rotate]
  have h2 : l.rotate (k + 1) = (l.rotate 1).rotate k := by
    rw [List.rotate_rotate, Nat.add_comm]
  rw [h2, ← zip_rotate _ _ (by simp)]

theorem rotate_one_add_back (l : Polygon3D) (hne : l ≠ []) :
    l.rotate (1 + (l.length - 1 % l.length)) = l := by
  have hpos : 0 < l.length := List.length_pos.mpr hne
  rw [← List.rotate_mod]
  have : (1 + (l.length - 1 % l.length)) % l.length = 0 := by
    rcases Nat.eq_or_lt_of_le hpos with h1 | h1
    · have : l.length = 1 := h1.symm
      simp [this]
    · have hm : 1 % l.length = 1 := Nat.mod_eq_of_lt h1
      rw [hm]
      have : 1 + (l.length - 1) = l.length := by omega
      rw [this, Nat.mod_self]
  rw [this, List.rotate_zero]

theorem cyclicPairs_reverse (l : Polygon3D) :
    cyclicPairs l.reverse =
      (((cyclicPairs l).rotate (l.length - 1 % l.length)).map Prod.swap).reverse := by
  rcases eq_or_ne l [] with rfl | hne
  · simp [cyclicPairs]
  unfold cyclicPairs
  rw [List.rotate_reverse l 1]
  rw [← reverse_zip _ _ (by simp)]
  congr 1
  rw [zip_rotate _ _ (by simp), List.rotate_rotate, rotate_one_add_back l hne,
    ← List.zip_swap]

theorem specNewell_rotate (l : Polygon3D) (k : ℕ) :
    specNewell (l.rotate k) = specNewell l := by
  unfold specNewell
  rw [cyclicPairs_rotate]
  ext <;> simp [sum_map_rotate]

theorem newellX_swap (p : Vector3D × Vector3D) : newellX p.swap = -newellX p := by
  cases p; simp [newellX, Prod.swap]; ring

theorem newellY_swap (p : Vector3D × Vector3D) : newellY p.swap = -newellY p := by
  cases p; simp [newellY, Prod.swap]; ring

theorem newellZ_swap (p : Vector3D × Vector3D) : newellZ p.swap = -newellZ p := by
  cases p; simp [newellZ, Prod.swap]; ring

theorem specNewell_reverse (l : Polygon3D) :
    specNewell l.reverse = -(specNewell l) := by
  unfold specNewell
  rw [cyclicPairs_reverse]
  have hx : ∀ f : Vector3D × Vector3D → ℚ, (∀ p, f p.swap = -f p) →
      (((((cyclicPairs l).rotate (l.length - 1 % l.length)).map Prod.swap).reverse).map
          f).sum = -((cyclicPairs l).map f).sum := by
    intro f hf
    rw [sum_map_reverse, List.map_map]
    have : f ∘ Prod.swap = fun p => -f p := by
      funext p
      simp [Function.comp, hf]
    rw [this, sum_map_neg, sum_map_rotate]
  ext
  · exact hx newellX newellX_swap
  · exact hx newellY newellY_swap
  · exact hx newellZ newellZ_swap

theorem Vector3D.neg_def (a : Vector3D) : -a = ⟨-a.x, -a.y, -a.z⟩ := rfl

theorem Vector3D.add_def (a b : Vector3D) :
    a + b = ⟨a.x + b.x, a.y + b.y, a.z + b.z⟩ := rfl

theorem Vector3D.sub_def (a b : Vector3D) :
    a - b = ⟨a.x - b.x, a.y - b.y, a.z - b.z⟩ := rfl

theorem normalise_vector_neg (v : Vector3D) :
    normalise_vector (-v) = -(normalise_vector v) := by
  simp [Vector3D.neg_def, normalise_vector, l1magnitude, neg_div]

/-- Claim C6: `normal_vector` is invariant under every cyclic rotation of the
vertex list, and `invert_orientation` (vertex reversal) negates it
componentwise. -/
theorem normal_vector_rotate_invert (p : Polygon3D) (k : ℕ) :
    normal_vector (p.rotate k) = normal_vector p ∧
      normal_vector (invert_orientation p) = -(normal_vector p) := by
  constructor
  · unfold normal_vector
    rw [newell_eq_specNewell, newell_eq_specNewell, specNewell_rotate]
  · unfold normal_vector invert_orientation
    rw [newell_eq_specNewell, newell_eq_specNewell, specNewell_reverse,
      normalise_vector_neg]

theorem projection_axis_cases (p : Polygon3D) :
    projection_axis p = 0 ∨ projection_axis p = 1 ∨ projection_axis p = 2 := by
  unfold projection_axis
  split <;> split <;> simp

theorem project_inv_projectPt (w : Vector3D) (ax : Nat) (v : Vector3D) (a : ℚ)
    (hax : ax = 0 ∨ ax = 1 ∨ ax = 2) (hv : v.nth ax ≠ 0) (hw : dotV v w = a) :
    project_inv (projectPt w ax) ax a v = w := by
  unfold dotV at hw
  rcases hax with rfl | rfl | rfl <;>
    · simp only [Vector3D.nth] at hv
      unfold project_inv projectPt
      ext
      all_goals (first | (simp; field_simp; linarith) | simp)

/-- Claim C4: for every coplanar `Polygon3D` whose normal component along the
chosen projection axis is nonzero, `project_to_2D` followed by
`project_to_3D` with the original polygon as reference reconstructs the
original vertex sequence (exactly, in the rational model). -/
theorem project_roundtrip (p : Polygon3D)
    (hco : ∀ w ∈ p, dotV (normal_vector p) w = distance p)
    (hax : (normal_vector p).nth (projection_axis p) ≠ 0) :
    project_to_3D (project_to_2D p) p = p := by
  unfold project_to_3D project_to_2D
  rw [List.map_map]
  have h : ∀ w ∈ p,
      project_inv (projectPt w (projection_axis p)) (projection_axis p)
        (distance p) (normal_vector p) = w := by
    intro w hw
    exact project_inv_projectPt w _ _ _ (projection_axis_cases p) hax (hco w hw)
  calc p.map _ = p.map id := List.map_congr_left h
    _ = p := List.map_id p

theorem project_roundtrip_witness :
    (∀ w ∈ [(⟨0, 0, 0⟩ : Vector3D), ⟨1, 0, 0⟩, ⟨1, 1, 0⟩, ⟨0, 1, 0⟩],
        dotV (normal_vector [(⟨0, 0, 0⟩ : Vector3D), ⟨1, 0, 0⟩, ⟨1, 1, 0⟩, ⟨0, 1, 0⟩]) w =
          distance [(⟨0, 0, 0⟩ : Vector3D), ⟨1, 0, 0⟩, ⟨1, 1, 0⟩, ⟨0, 1, 0⟩]) ∧
      (normal_vector [(⟨0, 0, 0⟩ : Vector3D), ⟨1, 0, 0⟩, ⟨1, 1, 0⟩, ⟨0, 1, 0⟩]).nth
          (projection_axis [(⟨0, 0, 0⟩ : Vector3D), ⟨1, 0, 0⟩, ⟨1, 1, 0⟩, ⟨0, 1, 0⟩]) ≠ 0 ∧
      project_to_3D
          (project_to_2D [(⟨0, 0, 0⟩ : Vector3D), ⟨1, 0, 0⟩, ⟨1, 1, 0⟩, ⟨0, 1, 0⟩])
          [(⟨0, 0, 0⟩ : Vector3D), ⟨1, 0, 0⟩, ⟨1, 1, 0⟩, ⟨0, 1, 0⟩] =
        [(⟨0, 0, 0⟩ : Vector3D), ⟨1, 0, 0⟩, ⟨1, 1, 0⟩, ⟨0, 1, 0⟩] := by
  have hn : normal_vector [(⟨0, 0, 0⟩ : Vector3D), ⟨1, 0, 0⟩, ⟨1, 1, 0⟩, ⟨0, 1, 0⟩] =
      ⟨0, 0, 1⟩ := by
    unfold normal_vector
    rw [newell_eq_specNewell]
    simp only [specNewell, cyclicPairs, newellX, newellY, newellZ,
      List.rotate_cons_succ, List.rotate_zero, normalise_vector, l1magnitude,
      List.zip_cons_cons, List.zip_nil_right, List.map_cons, List.map_nil,
      List.sum_cons, List.sum_nil, List.append_nil, List.nil_append,
      List.cons_append]
    norm_num
  have hco : ∀ w ∈ [(⟨0, 0, 0⟩ : Vector3D), ⟨1, 0, 0⟩, ⟨1, 1, 0⟩, ⟨0, 1, 0⟩],
      dotV (normal_vector [(⟨0, 0, 0⟩ : Vector3D), ⟨1, 0, 0⟩, ⟨1, 1, 0⟩, ⟨0, 1, 0⟩]) w =
        distance [(⟨0, 0, 0⟩ : Vector3D), ⟨1, 0, 0⟩, ⟨1, 1, 0⟩, ⟨0, 1, 0⟩] := by
    intro w hw
    fin_cases hw <;> simp [dotV, distance, hn]
  have hax : (normal_vector [(⟨0, 0, 0⟩ : Vector3D), ⟨1, 0, 0⟩, ⟨1, 1, 0⟩, ⟨0, 1, 0⟩]).nth
      (projection_axis [(⟨0, 0, 0⟩ : Vector3D), ⟨1, 0, 0⟩, ⟨1, 1, 0⟩, ⟨0, 1, 0⟩]) ≠ 0 := by
    simp [projection_axis, hn, Vector3D.nth]
  exact ⟨hco, hax, project_roundtrip _ hco hax⟩

/-- Claim C2: for every pair of non-coplanar polygons, each of the three 3D
boolean operations returns the empty list immediately, for every possible
behaviour of the clipping engine (which is never consulted). -/
theorem noncoplanar_bool_ops_empty (be : ClipBackend) (p1 p2 : Polygon3D)
    (h : is_coplanar p1 p2 = false) :
    union_3D_polys be p1 p2 = [] ∧ intersect_3D_polys be p1 p2 = [] ∧
      difference_3D_polys be p1 p2 = [] := by
  unfold union_3D_polys intersect_3D_polys difference_3D_polys prep_3D_polys
  rw [h]
  simp

theorem noncoplanar_bool_ops_empty_witness :
    is_coplanar [(⟨0, 0, 0⟩ : Vector3D), ⟨1, 0, 0⟩, ⟨1, 1, 0⟩, ⟨0, 1, 0⟩]
        [(⟨0, 0, 1⟩ : Vector3D), ⟨1, 0, 1⟩, ⟨1, 1, 1⟩, ⟨0, 1, 1⟩] = false ∧
      union_3D_polys (fun _ _ _ => [])
          [(⟨0, 0, 0⟩ : Vector3D), ⟨1, 0, 0⟩, ⟨1, 1, 0⟩, ⟨0, 1, 0⟩]
          [(⟨0, 0, 1⟩ : Vector3D), ⟨1, 0, 1⟩, ⟨1, 1, 1⟩, ⟨0, 1, 1⟩] = [] ∧
      intersect_3D_polys (fun _ _ _ => [])
          [(⟨0, 0, 0⟩ : Vector3D), ⟨1, 0, 0⟩, ⟨1, 1, 0⟩, ⟨0, 1, 0⟩]
          [(⟨0, 0, 1⟩ : Vector3D), ⟨1, 0, 1⟩, ⟨1, 1, 1⟩, ⟨0, 1, 1⟩] = [] ∧
      difference_3D_polys (fun _ _ _ => [])
          [(⟨0, 0, 0⟩ : Vector3D), ⟨1, 0, 0⟩, ⟨1, 1, 0⟩, ⟨0, 1, 0⟩]
          [(⟨0, 0, 1⟩ : Vector3D), ⟨1, 0, 1⟩, ⟨1, 1, 1⟩, ⟨0, 1, 1⟩] = [] := by
  have hn1 : normal_vector [(⟨0, 0, 0⟩ : Vector3D), ⟨1, 0, 0⟩, ⟨1, 1, 0⟩, ⟨0, 1, 0⟩] =
      ⟨0, 0, 1⟩ := by
    unfold normal_vector
    rw [newell_eq_specNewell]
    simp only [specNewell, cyclicPairs, newellX, newellY, newellZ,
      List.rotate_cons_succ, List.rotate_zero, normalise_vector, l1magnitude,
      List.zip_cons_cons, List.zip_nil_right, List.map_cons, List.map_nil,
      List.sum_cons, List.sum_nil, List.append_nil, List.nil_append,
      List.cons_append]
    norm_num
  have hn2 : normal_vector [(⟨0, 0, 1⟩ : Vector3D), ⟨1, 0, 1⟩, ⟨1, 1, 1⟩, ⟨0, 1, 1⟩] =
      ⟨0, 0, 1⟩ := by
    unfold normal_vector
    rw [newell_eq_specNewell]
    simp only [specNewell, cyclicPairs, newellX, newellY, newellZ,
      List.rotate_cons_succ, List.rotate_zero, normalise_vector, l1magnitude,
      List.zip_cons_cons, List.zip_nil_right, List.map_cons, List.map_nil,
      List.sum_cons, List.sum_nil, List.append_nil, List.nil_append,
      List.cons_append]
    norm_num
  have hc : is_coplanar [(⟨0, 0, 0⟩ : Vector3D), ⟨1, 0, 0⟩, ⟨1, 1, 0⟩, ⟨0, 1, 0⟩]
      [(⟨0, 0, 1⟩ : Vector3D), ⟨1, 0, 1⟩, ⟨1, 1, 1⟩, ⟨0, 1, 1⟩] = false := by
    simp only [is_coplanar, distance, hn1, hn2, dotV, almostequalV, almostequal,
      Vector3D.neg_def, List.getD_cons_zero]
    norm_num
  exact ⟨hc, (noncoplanar_bool_ops_empty _ _ _ hc).1,
    (noncoplanar_bool_ops_empty _ _ _ hc).2.1,
    (noncoplanar_bool_ops_empty _ _ _ hc).2.2⟩

/-- Claim C5, counterexample: two disjoint unit squares with the same
winding have identical normal vectors and are not identical state, yet
`__eq__` returns `False` (their difference is non-empty), so "symmetric
difference empty OR identical normal" is not what the code accepts. -/
theorem polygon2D_eq_normal_not_sufficient :
    normal_vector_2D [(⟨0, 0⟩ : Vector2D), ⟨1, 0⟩, ⟨1, 1⟩, ⟨0, 1⟩] =
        normal_vector_2D [(⟨5, 0⟩ : Vector2D), ⟨6, 0⟩, ⟨6, 1⟩, ⟨5, 1⟩] ∧
      ([(⟨0, 0⟩ : Vector2D), ⟨1, 0⟩, ⟨1, 1⟩, ⟨0, 1⟩] ≠
        [(⟨5, 0⟩ : Vector2D), ⟨6, 0⟩, ⟨6, 1⟩, ⟨5, 1⟩]) ∧
      polygon2D_eq disjointBackend [(⟨0, 0⟩ : Vector2D), ⟨1, 0⟩, ⟨1, 1⟩, ⟨0, 1⟩]
          [(⟨5, 0⟩ : Vector2D), ⟨6, 0⟩, ⟨6, 1⟩, ⟨5, 1⟩] = false := by
  have hn1 : normal_vector_2D [(⟨0, 0⟩ : Vector2D), ⟨1, 0⟩, ⟨1, 1⟩, ⟨0, 1⟩] =
      ⟨0, 0, 1⟩ := by
    unfold normal_vector_2D normal_vector
    rw [newell_eq_specNewell]
    simp only [specNewell, cyclicPairs, newellX, newellY, newellZ,
      List.rotate_cons_succ, List.rotate_zero, normalise_vector, l1magnitude,
      List.zip_cons_cons, List.zip_nil_right, List.map_cons, List.map_nil,
      List.sum_cons, List.sum_nil, List.append_nil, List.nil_append,
      List.cons_append]
    norm_num
  have hn2 : normal_vector_2D [(⟨5, 0⟩ : Vector2D), ⟨6, 0⟩, ⟨6, 1⟩, ⟨5, 1⟩] =
      ⟨0, 0, 1⟩ := by
    unfold normal_vector_2D normal_vector
    rw [newell_eq_specNewell]
    simp only [specNewell, cyclicPairs, newellX, newellY, newellZ,
      List.rotate_cons_succ, List.rotate_zero, normalise_vector, l1magnitude,
      List.zip_cons_cons, List.zip_nil_right, List.map_cons, List.map_nil,
      List.sum_cons, List.sum_nil, List.append_nil, List.nil_append,
      List.cons_append]
    norm_num
  refine ⟨hn1.trans hn2.symm, by simp, ?_⟩
  unfold polygon2D_eq
  rw [if_neg (by simp)]
  have hd : difference_2D_polys disjointBackend
      [(⟨0, 0⟩ : Vector2D), ⟨1, 0⟩, ⟨1, 1⟩, ⟨0, 1⟩]
      [(⟨5, 0⟩ : Vector2D), ⟨6, 0⟩, ⟨6, 1⟩, ⟨5, 1⟩] =
      [[(⟨0, 0⟩ : Vector2D), ⟨1, 0⟩, ⟨1, 1⟩, ⟨0, 1⟩]] := by
    unfold difference_2D_polys orient_2D process_clipped_2D_polys disjointBackend
    simp
  rw [if_pos (by rw [hd]; simp)]

/-- Claim C5, amended: for every clipping backend, 2D polygon equality holds
exactly when the vertex lists are identical, or the one-sided 2D difference
(subject minus clip) is empty AND the normal vectors are identical. -/
theorem polygon2D_eq_characterization (be : ClipBackend) (a other : Polygon2D) :
    polygon2D_eq be a other = true ↔
      (a = other ∨ (difference_2D_polys be a other = [] ∧
        normal_vector_2D a = normal_vector_2D other)) := by
  unfold polygon2D_eq
  split_ifs with h1 h2 <;> simp_all

theorem closestFrom_mem (p cur : Vector3D) (curd : ℚ) (qs : List Vector3D) :
    closestFrom p cur curd qs = cur ∨ closestFrom p cur curd qs ∈ qs := by
  induction qs generalizing cur curd with
  | nil => left; rfl
  | cons q qs ih =>
      unfold closestFrom
      split
      · rcases ih q (relative_distance p q) with h | h
        · right; rw [h]; exact List.mem_cons_self q qs
        · right; exact List.mem_cons_of_mem q h
      · rcases ih cur curd with h | h
        · left; exact h
        · right; exact List.mem_cons_of_mem q h

theorem closestFrom_min (p cur : Vector3D) (qs : List Vector3D) :
    relative_distance p (closestFrom p cur (relative_distance p cur) qs) ≤
        relative_distance p cur ∧
      ∀ x ∈ qs,
        relative_distance p (closestFrom p cur (relative_distance p cur) qs) ≤
          relative_distance p x := by
  induction qs generalizing cur with
  | nil => exact ⟨le_refl _, by simp⟩
  | cons q qs ih =>
      unfold closestFrom
      split
      · rename_i hlt
        refine ⟨le_of_lt (lt_of_le_of_lt (ih q).1 hlt), ?_⟩
        intro x hx
        rcases List.mem_cons.mp hx with heq | hx
        · rw [heq]; exact (ih q).1
        · exact (ih q).2 x hx
      · rename_i hge
        refine ⟨(ih cur).1, ?_⟩
        intro x hx
        rcases List.mem_cons.mp hx with heq | hx
        · rw [heq]; exact le_trans (ih cur).1 (not_lt.mp hge)
        · exact (ih cur).2 x hx

theorem closestFrom_first (p cur : Vector3D) (qs : List Vector3D)
    (h : ∀ x ∈ qs, relative_distance p cur ≤ relative_distance p x) :
    closestFrom p cur (relative_distance p cur) qs = cur := by
  induction qs with
  | nil => rfl
  | cons q qs ih =>
      unfold closestFrom
      rw [if_neg (not_lt.mpr (h q (List.mem_cons_self q qs)))]
      exact ih fun x hx => h x (List.mem_cons_of_mem q hx)

theorem closest_mem (p : Vector3D) (l : List Vector3D) (h : l ≠ []) :
    (closest p l).getD default ∈ l := by
  cases l with
  | nil => exact absurd rfl h
  | cons q qs =>
      unfold closest
      rcases closestFrom_mem p q (relative_distance p q) qs with h1 | h1
      · simp [h1]
      · simp [List.mem_cons_of_mem q h1]

theorem closest_min (p : Vector3D) (l : List Vector3D) (h : l ≠ []) :
    ∀ x ∈ l, relative_distance p ((closest p l).getD default) ≤
      relative_distance p x := by
  cases l with
  | nil => exact absurd rfl h
  | cons q qs =>
      intro x hx
      unfold closest
      simp only [Option.getD_some]
      rcases List.mem_cons.mp hx with heq | hx
      · rw [heq]; exact (closestFrom_min p q qs).1
      · exact (closestFrom_min p q qs).2 x hx

theorem mapRange_eq_rotate (l : Polygon3D) (s : ℕ) :
    (List.range l.length).map (fun i => l.getD ((s + i) % l.length) default) =
      l.rotate s := by
  apply List.ext_getElem
  · simp
  · intro i h1 h2
    have hi : i < l.length := by simpa using h1
    have hpos : 0 < l.length := by omega
    have hmod : (s + i) % l.length < l.length := Nat.mod_lt _ hpos
    simp only [List.getElem_map, List.getElem_range, List.getElem_rotate]
    rw [List.getD_eq_getElem l default hmod]
    congr 1
    rw [Nat.add_comm]

theorem orderFrom_eq_rotate (p : Polygon3D) (corner : Vector3D) :
    orderFrom p corner = p.rotate (p.indexOf ((closest corner p).getD default)) := by
  unfold orderFrom
  exact mapRange_eq_rotate p _

/-- Claim C7: `order_points('upperleftcorner')` returns the cyclic rotation
of the vertex list starting at the vertex nearest the bounding box's
upper-left corner (so index 0 is that vertex), and applying it twice gives
the same vertex sequence as applying it once.  The bounding box (whose
plane-alignment transform lives outside `src/`) is any function of the
polygon invariant under cyclic rotation of the vertex list, as the spec's
plane-plus-extents description implies. -/
theorem order_points_upperleft (bounding_box : Polygon3D → Polygon3D)
    (p : Polygon3D) (hne : p ≠ [])
    (hbb : ∀ k, bounding_box (p.rotate k) = bounding_box p) :
    order_points bounding_box p "upperleftcorner" =
        .ok (p.rotate (ulStart bounding_box p)) ∧
      (p.rotate (ulStart bounding_box p)).getD 0 default =
        ulStartVertex bounding_box p ∧
      order_points bounding_box (p.rotate (ulStart bounding_box p))
          "upperleftcorner" = .ok (p.rotate (ulStart bounding_box p)) := by
  have hmem : ulStartVertex bounding_box p ∈ p := closest_mem _ _ hne
  have hs : ulStart bounding_box p < p.length := List.indexOf_lt_length.mpr hmem
  have hp0 : 0 < p.length := List.length_pos.mpr hne
  have hpart1 : order_points bounding_box p "upperleftcorner" =
      .ok (p.rotate (ulStart bounding_box p)) := by
    unfold order_points
    rw [if_pos rfl, orderFrom_eq_rotate]
    rfl
  have hpart2 : (p.rotate (ulStart bounding_box p)).getD 0 default =
      ulStartVertex bounding_box p := by
    have hlen : 0 < (p.rotate (ulStart bounding_box p)).length := by
      rw [List.length_rotate]; exact hp0
    rw [List.getD_eq_getElem _ default hlen, List.getElem_rotate]
    simp only [Nat.zero_add, Nat.mod_eq_of_lt hs]
    exact List.getElem_indexOf hs
  refine ⟨hpart1, hpart2, ?_⟩
  have hrne : p.rotate (ulStart bounding_box p) ≠ [] := by
    intro hnil
    rw [← List.length_eq_zero, List.length_rotate] at hnil
    omega
  obtain ⟨t, ht⟩ : ∃ t, p.rotate (ulStart bounding_box p) =
      ulStartVertex bounding_box p :: t := by
    cases hr : p.rotate (ulStart bounding_box p) with
    | nil => exact absurd hr hrne
    | cons a t =>
        refine ⟨t, ?_⟩
        have ha : a = ulStartVertex bounding_box p := by
          have h2 := hpart2
          rw [hr] at h2
          simpa using h2
        rw [ha]
  have hcorner : ulCorner bounding_box (p.rotate (ulStart bounding_box p)) =
      ulCorner bounding_box p := by
    unfold ulCorner
    rw [hbb]
  have hclosest : (closest (ulCorner bounding_box p)
      (p.rotate (ulStart bounding_box p))).getD default =
      ulStartVertex bounding_box p := by
    rw [ht]
    show (some (closestFrom (ulCorner bounding_box p) (ulStartVertex bounding_box p)
      (relative_distance (ulCorner bounding_box p) (ulStartVertex bounding_box p))
      t)).getD default = ulStartVertex bounding_box p
    rw [closestFrom_first]
    · rfl
    · intro x hx
      have hxp : x ∈ p := by
        have hxr : x ∈ p.rotate (ulStart bounding_box p) := by
          rw [ht]; exact List.mem_cons_of_mem _ hx
        exact (List.rotate_perm p (ulStart bounding_box p)).mem_iff.mp hxr
      exact closest_min (ulCorner bounding_box p) p hne x hxp
  unfold order_points
  rw [if_pos rfl, orderFrom_eq_rotate]
  have hidx : (p.rotate (ulStart bounding_box p)).indexOf
      ((closest (ulCorner bounding_box (p.rotate (ulStart bounding_box p)))
        (p.rotate (ulStart bounding_box p))).getD default) = 0 := by
    rw [hcorner, hclosest, ht]
    exact List.indexOf_cons_self _ _
  rw [show (bounding_box (p.rotate (ulStart bounding_box p))).getD 0 default =
      ulCorner bounding_box (p.rotate (ulStart bounding_box p)) from rfl]
  rw [hidx, List.rotate_zero]

theorem order_points_upperleft_witness :
    order_points (fun _ => [⟨0, 1, 0⟩, ⟨0, 0, 0⟩, ⟨1, 0, 0⟩, ⟨1, 1, 0⟩])
        [(⟨0, 0, 0⟩ : Vector3D), ⟨1, 0, 0⟩, ⟨1, 1, 0⟩, ⟨0, 1, 0⟩] "upperleftcorner" =
        .ok ([(⟨0, 0, 0⟩ : Vector3D), ⟨1, 0, 0⟩, ⟨1, 1, 0⟩, ⟨0, 1, 0⟩].rotate
          (ulStart (fun _ => [⟨0, 1, 0⟩, ⟨0, 0, 0⟩, ⟨1, 0, 0⟩, ⟨1, 1, 0⟩])
            [(⟨0, 0, 0⟩ : Vector3D), ⟨1, 0, 0⟩, ⟨1, 1, 0⟩, ⟨0, 1, 0⟩])) ∧
      ([(⟨0, 0, 0⟩ : Vector3D), ⟨1, 0, 0⟩, ⟨1, 1, 0⟩, ⟨0, 1, 0⟩].rotate
          (ulStart (fun _ => [⟨0, 1, 0⟩, ⟨0, 0, 0⟩, ⟨1, 0, 0⟩, ⟨1, 1, 0⟩])
            [(⟨0, 0, 0⟩ : Vector3D), ⟨1, 0, 0⟩, ⟨1, 1, 0⟩, ⟨0, 1, 0⟩])).getD 0 default =
        ulStartVertex (fun _ => [⟨0, 1, 0⟩, ⟨0, 0, 0⟩, ⟨1, 0, 0⟩, ⟨1, 1, 0⟩])
          [(⟨0, 0, 0⟩ : Vector3D), ⟨1, 0, 0⟩, ⟨1, 1, 0⟩, ⟨0, 1, 0⟩] ∧
      order_points (fun _ => [⟨0, 1, 0⟩, ⟨0, 0, 0⟩, ⟨1, 0, 0⟩, ⟨1, 1, 0⟩])
          ([(⟨0, 0, 0⟩ : Vector3D), ⟨1, 0, 0⟩, ⟨1, 1, 0⟩, ⟨0, 1, 0⟩].rotate
            (ulStart (fun _ => [⟨0, 1, 0⟩, ⟨0, 0, 0⟩, ⟨1, 0, 0⟩, ⟨1, 1, 0⟩])
              [(⟨0, 0, 0⟩ : Vector3D), ⟨1, 0, 0⟩, ⟨1, 1, 0⟩, ⟨0, 1, 0⟩]))
          "upperleftcorner" =
        .ok ([(⟨0, 0, 0⟩ : Vector3D), ⟨1, 0, 0⟩, ⟨1, 1, 0⟩, ⟨0, 1, 0⟩].rotate
          (ulStart (fun _ => [⟨0, 1, 0⟩, ⟨0, 0, 0⟩, ⟨1, 0, 0⟩, ⟨1, 1, 0⟩])
            [(⟨0, 0, 0⟩ : Vector3D), ⟨1, 0, 0⟩, ⟨1, 1, 0⟩, ⟨0, 1, 0⟩])) :=
  order_points_upperleft _ _ (by simp) (fun _ => rfl)

/-- Claim C8: `order_points` on any string other than the four corner names
fails with a `ValueError` naming the string, and `outside_point` on any
string whose lowercase form is neither winding direction fails with a
`ValueError` naming the (lowercased) string; neither falls back to a
default. -/
theorem invalid_config_errors (bounding_box : Polygon3D → Polygon3D)
    (p : Polygon3D) (s d : String)
    (h1 : s ≠ "upperleftcorner") (h2 : s ≠ "lowerleftcorner")
    (h3 : s ≠ "lowerrightcorner") (h4 : s ≠ "upperrightcorner")
    (h5 : pyLower d ≠ "clockwise") (h6 : pyLower d ≠ "counterclockwise") :
    order_points bounding_box p s =
        .error (s ++ " is not a valid starting position") ∧
      outside_point p d =
        .error ("invalid value for entry_direction " ++ pyLower d) := by
  unfold order_points outside_point
  rw [if_neg h1, if_neg h2, if_neg h3, if_neg h4, if_neg h5, if_neg h6]
  exact ⟨rfl, rfl⟩

theorem invalid_config_errors_witness :
    order_points (fun q => q) [(⟨0, 0, 0⟩ : Vector3D)] "topleft" =
        .error ("topleft" ++ " is not a valid starting position") ∧
      outside_point [(⟨0, 0, 0⟩ : Vector3D)] "Widdershins" =
        .error ("invalid value for entry_direction " ++ pyLower "Widdershins") :=
  invalid_config_errors _ _ _ _ (by decide) (by decide) (by decide) (by decide)
    (by decide) (by decide)

/-- Claim C9, counterexample: a 4-vertex polygon plus a 3-vertex polygon has
different vertex counts and a right-hand side that is not a translation
vector, yet the operation raises `TypeError` from inside the vector
addition, not the descriptive incompatible-operands `ValueError` the claim
promises. -/
theorem polygon3D_add_misdispatch :
    polygon3D_add [(⟨0, 0, 0⟩ : Vector3D), ⟨1, 0, 0⟩, ⟨1, 1, 0⟩, ⟨0, 1, 0⟩]
        (.poly [⟨0, 0, 0⟩, ⟨1, 0, 0⟩, ⟨0, 1, 0⟩]) = .error .typeError ∧
      (PyError.typeError ≠
        PyError.valueErrorIncompatible
          [(⟨0, 0, 0⟩ : Vector3D), ⟨1, 0, 0⟩, ⟨1, 1, 0⟩, ⟨0, 1, 0⟩]
          (.poly [⟨0, 0, 0⟩, ⟨1, 0, 0⟩, ⟨0, 1, 0⟩])) := by
  constructor
  · rfl
  · intro h
    exact PyError.noConfusion h

/-- With equal vertex counts (and a non-empty right-hand polygon, which
equal counts force here) the arithmetic is elementwise. -/
theorem polyArith_poly_same (f : Vector3D → Vector3D → Vector3D)
    (a q : List Vector3D) (hne : a ≠ []) (hq : q.length = a.length) :
    polyArith f a (.poly q) = .ok (List.zipWith f a q) := by
  cases q with
  | nil =>
      have : a.length = 0 := by simpa using hq.symm
      exact absurd (List.length_eq_zero.mp this) hne
  | cons v vs => simp [polyArith, operandLen, hq.symm]

/-- A `Vector3D` right-hand side always reaches the translate branch. -/
theorem polyArith_vec (f : Vector3D → Vector3D → Vector3D) (a : List Vector3D)
    (w : Vector3D) (hne : a ≠ []) :
    polyArith f a (.vec w) = .ok (a.map (fun v => f v w)) := by
  rcases eq_or_ne a.length 3 with h | h <;>
    simp [polyArith, translateBranch, operandLen, hne, h]

/-- Different vertex counts and a right-hand polygon whose count also
differs from the vertex dimension: the descriptive `ValueError`. -/
theorem polyArith_poly_mismatch (f : Vector3D → Vector3D → Vector3D)
    (a q : List Vector3D) (hne : a ≠ []) (hq : q.length ≠ a.length)
    (h3 : q.length ≠ 3) :
    polyArith f a (.poly q) = .error (.valueErrorIncompatible a (.poly q)) := by
  simp [polyArith, translateBranch, operandLen, hne, Ne.symm hq, Ne.symm h3]

/-- Different vertex counts but a 3-vertex right-hand polygon: misdispatched
to the translate branch, raising `TypeError`. -/
theorem polyArith_poly_misdispatch (f : Vector3D → Vector3D → Vector3D)
    (a q : List Vector3D) (hne : a ≠ []) (hq : q.length ≠ a.length)
    (h3 : q.length = 3) :
    polyArith f a (.poly q) = .error .typeError := by
  have ha : a.length ≠ 3 := fun h => hq (h3.trans h.symm)
  simp [polyArith, translateBranch, operandLen, hne, h3, ha]

/-- Claim C9, amended: with equal vertex counts the result is the
elementwise polygon sum (and difference); a `Vector3D` right-hand side
translates every vertex; with different vertex counts the descriptive
`ValueError` naming both operands is raised only when the right-hand
polygon's vertex count also differs from the vertex dimension 3 — a
3-vertex polygon right-hand side is misdispatched to the translate branch
and raises a `TypeError` that names neither operand. -/
theorem polygon3D_add_sub_dispatch (a : List Vector3D) (hne : a ≠ []) :
    (∀ q : List Vector3D, q.length = a.length →
      polygon3D_add a (.poly q) = .ok (List.zipWith (fun v w => v + w) a q) ∧
        polygon3D_sub a (.poly q) = .ok (List.zipWith (fun v w => v - w) a q)) ∧
      (∀ w : Vector3D,
        polygon3D_add a (.vec w) = .ok (a.map (fun v => v + w)) ∧
          polygon3D_sub a (.vec w) = .ok (a.map (fun v => v - w))) ∧
      (∀ q : List Vector3D, q.length ≠ a.length → q.length ≠ 3 →
        polygon3D_add a (.poly q) = .error (.valueErrorIncompatible a (.poly q)) ∧
          polygon3D_sub a (.poly q) =
            .error (.valueErrorIncompatible a (.poly q))) ∧
      (∀ q : List Vector3D, q.length ≠ a.length → q.length = 3 →
        polygon3D_add a (.poly q) = .error .typeError ∧
          polygon3D_sub a (.poly q) = .error .typeError) := by
  refine ⟨fun q hq => ⟨?_, ?_⟩, fun w => ⟨?_, ?_⟩, fun q hq h3 => ⟨?_, ?_⟩,
    fun q hq h3 => ⟨?_, ?_⟩⟩
  · exact polyArith_poly_same _ a q hne hq
  · exact polyArith_poly_same _ a q hne hq
  · exact polyArith_vec _ a w hne
  · exact polyArith_vec _ a w hne
  · exact polyArith_poly_mismatch _ a q hne hq h3
  · exact polyArith_poly_mismatch _ a q hne hq h3
  · exact polyArith_poly_misdispatch _ a q hne hq h3
  · exact polyArith_poly_misdispatch _ a q hne hq h3

theorem polygon3D_add_sub_dispatch_witness :
    polygon3D_add [(⟨0, 0, 0⟩ : Vector3D), ⟨1, 0, 0⟩] (.vec ⟨2, 3, 4⟩) =
        .ok [⟨2, 3, 4⟩, ⟨3, 3, 4⟩] ∧
      polygon3D_add [(⟨0, 0, 0⟩ : Vector3D), ⟨1, 0, 0⟩]
          (.poly [⟨1, 1, 1⟩, ⟨2, 2, 2⟩]) = .ok [⟨1, 1, 1⟩, ⟨3, 2, 2⟩] := by
  have h := polygon3D_add_sub_dispatch [(⟨0, 0, 0⟩ : Vector3D), ⟨1, 0, 0⟩]
    (by simp)
  constructor
  · rw [(h.2.1 ⟨2, 3, 4⟩).1]
    simp [Vector3D.add_def]
    norm_num
  · rw [(h.1 [⟨1, 1, 1⟩, ⟨2, 2, 2⟩] (by simp)).1]
    simp [Vector3D.add_def]
    norm_num

/-- Claim C10, counterexample: the already-unit vector `(1, 0)` is nonzero,
and `normalize` succeeds returning the same reference, yet the stored
components afterwards still equal the original ones — they have not
changed. -/
theorem normalize_unit_vector_unchanged :
    vector_length ((fun _ => [(1 : ℚ), 0]) 0) ≠ 0 ∧
      (normalize 0 (fun _ => [(1 : ℚ), 0])).toOption.map (fun pr => (pr.1, pr.2 0)) =
        some (0, [(1 : ℚ), 0]) := by
  have hlen : vector_length ((fun _ => [(1 : ℚ), 0]) 0) = 1 := by
    show Rat.sqrt (([(1 : ℚ), 0].map (fun x => x ^ 2)).sum) = 1
    have h1 : (([(1 : ℚ), 0].map (fun x => x ^ 2)).sum) = 1 * 1 := by
      simp
    rw [h1, Rat.sqrt_eq]
    norm_num
  constructor
  · rw [hlen]; norm_num
  · unfold normalize set_length
    rw [if_neg (by rw [hlen]; norm_num)]
    simp [hlen]
    exact ⟨0, fun _ => [(1 : ℚ), 0], rfl, rfl, rfl⟩

/-- Claim C10, amended: for every nonzero vector, `set_length` (and
`normalize`, which is `set_length(1.0)`) mutates the receiver in place and
returns the very same reference, not a fresh copy: the store afterwards
holds the scaled components at the receiver's reference (values that differ
from the originals exactly when the multiplier is not 1, e.g. for
`normalize` whenever the length is not 1), every other reference is
untouched, and the returned value aliases the receiver. -/
theorem set_length_inplace_alias (r : Nat) (new_length : ℚ) (σ : Store)
    (h : vector_length (σ r) ≠ 0) :
    ∃ σ' : Store,
      set_length r new_length σ = .ok (r, σ') ∧
        normalize r σ = set_length r 1 σ ∧
        σ' r = (σ r).map (fun i => i * (new_length / vector_length (σ r))) ∧
        ∀ q, q ≠ r → σ' q = σ q := by
  refine ⟨fun q =>
    if q = r then (σ r).map (fun i => i * (new_length / vector_length (σ r)))
    else σ q, ?_, rfl, ?_, ?_⟩
  · unfold set_length
    rw [if_neg h]
  · simp
  · intro q hq
    simp [hq]

theorem set_length_inplace_alias_witness :
    vector_length ((fun _ => [(3 : ℚ), 4]) 0) ≠ 0 ∧
      (∃ σ' : Store,
        set_length 0 2 (fun _ => [(3 : ℚ), 4]) = .ok (0, σ') ∧
          normalize 0 (fun _ => [(3 : ℚ), 4]) =
            set_length 0 1 (fun _ => [(3 : ℚ), 4]) ∧
          σ' 0 = ([(3 : ℚ), 4]).map
            (fun i => i * (2 / vector_length ((fun _ => [(3 : ℚ), 4]) 0))) ∧
          ∀ q, q ≠ 0 → σ' q = (fun _ => [(3 : ℚ), 4]) q) := by
  have hlen : vector_length ((fun _ => [(3 : ℚ), 4]) 0) = 5 := by
    show Rat.sqrt (([(3 : ℚ), 4].map (fun x => x ^ 2)).sum) = 5
    have h1 : (([(3 : ℚ), 4].map (fun x => x ^ 2)).sum) = 5 * 5 := by
      simp
      norm_num
    rw [h1, Rat.sqrt_eq]
    norm_num
  have h : vector_length ((fun _ => [(3 : ℚ), 4]) 0) ≠ 0 := by
    rw [hlen]; norm_num
  exact ⟨h, set_length_inplace_alias 0 2 (fun _ => [(3 : ℚ), 4]) h⟩

theorem sectionGo_skip (a b : Vector3D) (m rest : List Vector3D) (hm : a ∉ m) :
    sectionGo a b false (m ++ rest) = sectionGo a b false rest := by
  induction m with
  | nil => rfl
  | cons x xs ih =>
      have hx : ¬(x = a) := fun h => hm (h ▸ List.mem_cons_self x xs)
      have hxs : a ∉ xs := fun h => hm (List.mem_cons_of_mem x h)
      simp only [List.cons_append, sectionGo, if_neg hx, if_neg (by simp : ¬False)]
      exact ih hxs

theorem sectionGo_true_take (a b : Vector3D) (hab : a ≠ b) (m rest : List Vector3D)
    (hb : b ∈ m) (ha : a ∉ m) :
    sectionGo a b true (m ++ rest) = takeThrough b m := by
  induction m with
  | nil => exact absurd hb (List.not_mem_nil b)
  | cons x xs ih =>
      have hx : ¬(x = a) := fun h => ha (h ▸ List.mem_cons_self x xs)
      have hxs : a ∉ xs := fun h => ha (List.mem_cons_of_mem x h)
      by_cases hxb : x = b
      · simp [sectionGo, hx, hxb, takeThrough]
        intro h
        exact absurd h.symm hab
      · have hbxs : b ∈ xs := by
          rcases List.mem_cons.mp hb with h | h
          · exact absurd h.symm hxb
          · exact h
        simp [sectionGo, hx, hxb, takeThrough, ih hbxs hxs]

theorem indexOf_eq_prefix_length (a : Vector3D) (l1 l2 : List Vector3D)
    (h : a ∉ l1) : (l1 ++ a :: l2).indexOf a = l1.length := by
  rw [List.indexOf_append_of_not_mem h, List.indexOf_cons_self]
  omega

theorem rotate_to_mem (a : Vector3D) (l1 l2 : List Vector3D) (h : a ∉ l1) :
    (l1 ++ a :: l2).rotate ((l1 ++ a :: l2).indexOf a) = a :: (l2 ++ l1) := by
  rw [indexOf_eq_prefix_length a l1 l2 h,
    List.rotate_eq_drop_append_take (by simp), List.drop_left,
    List.take_left]
  rfl

/-- The source's `section` over the doubled ring equals the specification's
ring walk, for distinct endpoints of a duplicate-free ring. -/
theorem sectionWalk_eq_ringWalk (a b : Vector3D) (l : List Vector3D)
    (hn : l.Nodup) (ha : a ∈ l) (hb : b ∈ l) (hab : a ≠ b) :
    sectionWalk a b (l ++ l) = ringWalk a b l := by
  obtain ⟨l1, l2, rfl⟩ := List.append_of_mem ha
  obtain ⟨h1, h2, hdj⟩ := List.nodup_append.mp hn
  have ha1 : a ∉ l1 := fun hm => hdj hm (List.mem_cons_self a l2)
  have ha2 : a ∉ l2 := (List.nodup_cons.mp h2).1
  have hbm : b ∈ l2 ++ l1 := by
    rcases List.mem_append.mp hb with h | h
    · exact List.mem_append.mpr (Or.inr h)
    · rcases List.mem_cons.mp h with h | h
      · exact absurd h.symm hab
      · exact List.mem_append.mpr (Or.inl h)
  have ham : a ∉ l2 ++ l1 := by
    intro hm
    rcases List.mem_append.mp hm with h | h
    · exact ha2 h
    · exact ha1 h
  unfold sectionWalk ringWalk
  rw [rotate_to_mem a l1 l2 ha1]
  have hassoc : (l1 ++ a :: l2) ++ (l1 ++ a :: l2) =
      l1 ++ (a :: (l2 ++ (l1 ++ a :: l2))) := by simp
  rw [hassoc, sectionGo_skip a b l1 _ ha1]
  have hstep : sectionGo a b false (a :: (l2 ++ (l1 ++ a :: l2))) =
      a :: sectionGo a b true (l2 ++ (l1 ++ a :: l2)) := by
    simp [sectionGo]
  rw [hstep]
  have hassoc2 : l2 ++ (l1 ++ a :: l2) = (l2 ++ l1) ++ (a :: l2) := by simp
  rw [hassoc2, sectionGo_true_take a b hab (l2 ++ l1) (a :: l2) hbm ham]
  show a :: takeThrough b (l2 ++ l1) = takeThrough b (a :: (l2 ++ l1))
  simp only [takeThrough, if_neg (fun h => hab h)]

/-- Claim C3: `break_polygons` returns exactly two polygons: the first walks
the outer ring from the closest pair's P-endpoint to the second-closest
pair's P-endpoint (inclusive, ring-wrapped) then the hole ring in reverse
from the second bridge's H-endpoint to the first bridge's H-endpoint
(ring-wrapped); the second is the first result of
`poly.difference(hole.union(first piece))`; each piece is inverted when its
normal does not match the outer polygon's.  Stated for duplicate-free rings
and distinct bridge endpoints, where the doubled-ring `section` walk is the
ring walk. -/
theorem break_polygons_bridges (be : ClipBackend) (poly hole : Polygon3D)
    (hp : poly.Nodup) (hh : hole.Nodup)
    (hfp : firstOnPoly poly hole ∈ poly) (hlp : lastOnPoly poly hole ∈ poly)
    (hpd : firstOnPoly poly hole ≠ lastOnPoly poly hole)
    (hfh : firstOnHole poly hole ∈ hole) (hlh : lastOnHole poly hole ∈ hole)
    (hhd : firstOnHole poly hole ≠ lastOnHole poly hole) :
    break_polygons be poly hole =
      [matchOrientation poly
          (ringWalk (firstOnPoly poly hole) (lastOnPoly poly hole) poly ++
            ringWalk (firstOnHole poly hole) (lastOnHole poly hole) hole.reverse),
        matchOrientation poly
          ((difference_3D_polys be poly
            ((union_3D_polys be hole
              (ringWalk (firstOnPoly poly hole) (lastOnPoly poly hole) poly ++
                ringWalk (firstOnHole poly hole) (lastOnHole poly hole)
                  hole.reverse)).getD 0 default)).getD 0 default)] := by
  have hbr : bridgedSection poly hole =
      ringWalk (firstOnPoly poly hole) (lastOnPoly poly hole) poly ++
        ringWalk (firstOnHole poly hole) (lastOnHole poly hole) hole.reverse := by
    unfold bridgedSection
    rw [List.reverse_append,
      sectionWalk_eq_ringWalk _ _ poly hp hfp hlp hpd,
      sectionWalk_eq_ringWalk _ _ hole.reverse (List.nodup_reverse.mpr hh)
        (List.mem_reverse.mpr hfh) (List.mem_reverse.mpr hlh) hhd]
  unfold break_polygons
  rw [hbr]

theorem break_polygons_bridges_witness :
    ([(⟨0, 0, 0⟩ : Vector3D), ⟨4, 0, 0⟩, ⟨0, 4, 0⟩].Nodup) ∧
      ([(⟨1, 1, 0⟩ : Vector3D), ⟨3, 1, 0⟩].Nodup) ∧
      firstOnPoly [⟨0, 0, 0⟩, ⟨4, 0, 0⟩, ⟨0, 4, 0⟩] [⟨1, 1, 0⟩, ⟨3, 1, 0⟩] ≠
        lastOnPoly [⟨0, 0, 0⟩, ⟨4, 0, 0⟩, ⟨0, 4, 0⟩] [⟨1, 1, 0⟩, ⟨3, 1, 0⟩] ∧
      firstOnHole [⟨0, 0, 0⟩, ⟨4, 0, 0⟩, ⟨0, 4, 0⟩] [⟨1, 1, 0⟩, ⟨3, 1, 0⟩] ≠
        lastOnHole [⟨0, 0, 0⟩, ⟨4, 0, 0⟩, ⟨0, 4, 0⟩] [⟨1, 1, 0⟩, ⟨3, 1, 0⟩] ∧
      break_polygons (fun _ _ _ => []) [⟨0, 0, 0⟩, ⟨4, 0, 0⟩, ⟨0, 4, 0⟩]
          [⟨1, 1, 0⟩, ⟨3, 1, 0⟩] =
        [matchOrientation [⟨0, 0, 0⟩, ⟨4, 0, 0⟩, ⟨0, 4, 0⟩]
            (ringWalk (firstOnPoly [⟨0, 0, 0⟩, ⟨4, 0, 0⟩, ⟨0, 4, 0⟩]
                [⟨1, 1, 0⟩, ⟨3, 1, 0⟩])
              (lastOnPoly [⟨0, 0, 0⟩, ⟨4, 0, 0⟩, ⟨0, 4, 0⟩] [⟨1, 1, 0⟩, ⟨3, 1, 0⟩])
              [⟨0, 0, 0⟩, ⟨4, 0, 0⟩, ⟨0, 4, 0⟩] ++
              ringWalk (firstOnHole [⟨0, 0, 0⟩, ⟨4, 0, 0⟩, ⟨0, 4, 0⟩]
                  [⟨1, 1, 0⟩, ⟨3, 1, 0⟩])
                (lastOnHole [⟨0, 0, 0⟩, ⟨4, 0, 0⟩, ⟨0, 4, 0⟩] [⟨1, 1, 0⟩, ⟨3, 1, 0⟩])
                ([(⟨1, 1, 0⟩ : Vector3D), ⟨3, 1, 0⟩].reverse)),
          matchOrientation [⟨0, 0, 0⟩, ⟨4, 0, 0⟩, ⟨0, 4, 0⟩]
            ((difference_3D_polys (fun _ _ _ => []) [⟨0, 0, 0⟩, ⟨4, 0, 0⟩, ⟨0, 4, 0⟩]
              ((union_3D_polys (fun _ _ _ => []) [⟨1, 1, 0⟩, ⟨3, 1, 0⟩]
                (ringWalk (firstOnPoly [⟨0, 0, 0⟩, ⟨4, 0, 0⟩, ⟨0, 4, 0⟩]
                    [⟨1, 1, 0⟩, ⟨3, 1, 0⟩])
                  (lastOnPoly [⟨0, 0, 0⟩, ⟨4, 0, 0⟩, ⟨0, 4, 0⟩]
                    [⟨1, 1, 0⟩, ⟨3, 1, 0⟩])
                  [⟨0, 0, 0⟩, ⟨4, 0, 0⟩, ⟨0, 4, 0⟩] ++
                  ringWalk (firstOnHole [⟨0, 0, 0⟩, ⟨4, 0, 0⟩, ⟨0, 4, 0⟩]
                      [⟨1, 1, 0⟩, ⟨3, 1, 0⟩])
                    (lastOnHole [⟨0, 0, 0⟩, ⟨4, 0, 0⟩, ⟨0, 4, 0⟩]
                      [⟨1, 1, 0⟩, ⟨3, 1, 0⟩])
                    ([(⟨1, 1, 0⟩ : Vector3D), ⟨3, 1, 0⟩].reverse))).getD 0
                default)).getD 0 default)] := by
  have hlinks : bridgeLinks [⟨0, 0, 0⟩, ⟨4, 0, 0⟩, ⟨0, 4, 0⟩]
      [⟨1, 1, 0⟩, ⟨3, 1, 0⟩] =
      [(⟨0, 0, 0⟩, ⟨1, 1, 0⟩), (⟨4, 0, 0⟩, ⟨3, 1, 0⟩), (⟨0, 0, 0⟩, ⟨3, 1, 0⟩),
        (⟨4, 0, 0⟩, ⟨1, 1, 0⟩), (⟨0, 4, 0⟩, ⟨1, 1, 0⟩), (⟨0, 4, 0⟩, ⟨3, 1, 0⟩)] := by
    norm_num [bridgeLinks, sortByDist, pyProduct, insertByDist, relative_distance]
  have hfp' : firstOnPoly [⟨0, 0, 0⟩, ⟨4, 0, 0⟩, ⟨0, 4, 0⟩] [⟨1, 1, 0⟩, ⟨3, 1, 0⟩] =
      ⟨0, 0, 0⟩ := by
    unfold firstOnPoly
    rw [hlinks]
    rfl
  have hlp' : lastOnPoly [⟨0, 0, 0⟩, ⟨4, 0, 0⟩, ⟨0, 4, 0⟩] [⟨1, 1, 0⟩, ⟨3, 1, 0⟩] =
      ⟨4, 0, 0⟩ := by
    unfold lastOnPoly
    rw [hlinks]
    rfl
  have hfh' : firstOnHole [⟨0, 0, 0⟩, ⟨4, 0, 0⟩, ⟨0, 4, 0⟩] [⟨1, 1, 0⟩, ⟨3, 1, 0⟩] =
      ⟨3, 1, 0⟩ := by
    unfold firstOnHole
    rw [hlinks]
    rfl
  have hlh' : lastOnHole [⟨0, 0, 0⟩, ⟨4, 0, 0⟩, ⟨0, 4, 0⟩] [⟨1, 1, 0⟩, ⟨3, 1, 0⟩] =
      ⟨1, 1, 0⟩ := by
    unfold lastOnHole
    rw [hlinks]
    rfl
  have hp : ([(⟨0, 0, 0⟩ : Vector3D), ⟨4, 0, 0⟩, ⟨0, 4, 0⟩].Nodup) := by
    norm_num [Vector3D.mk.injEq]
  have hh : ([(⟨1, 1, 0⟩ : Vector3D), ⟨3, 1, 0⟩].Nodup) := by
    norm_num [Vector3D.mk.injEq]
  have hpd : firstOnPoly [⟨0, 0, 0⟩, ⟨4, 0, 0⟩, ⟨0, 4, 0⟩] [⟨1, 1, 0⟩, ⟨3, 1, 0⟩] ≠
      lastOnPoly [⟨0, 0, 0⟩, ⟨4, 0, 0⟩, ⟨0, 4, 0⟩] [⟨1, 1, 0⟩, ⟨3, 1, 0⟩] := by
    rw [hfp', hlp']
    simp [Vector3D.mk.injEq]
  have hhd : firstOnHole [⟨0, 0, 0⟩, ⟨4, 0, 0⟩, ⟨0, 4, 0⟩] [⟨1, 1, 0⟩, ⟨3, 1, 0⟩] ≠
      lastOnHole [⟨0, 0, 0⟩, ⟨4, 0, 0⟩, ⟨0, 4, 0⟩] [⟨1, 1, 0⟩, ⟨3, 1, 0⟩] := by
    rw [hfh', hlh']
    simp [Vector3D.mk.injEq]
  refine ⟨hp, hh, hpd, hhd, ?_⟩
  exact break_polygons_bridges _ _ _ hp hh
    (by rw [hfp']; simp) (by rw [hlp']; simp) hpd
    (by rw [hfh']; simp) (by rw [hlh']; simp) hhd

end Geomeppy
